import Mathlib

/-!
Shallow embedding of `server.py` (spliceai-lookup): the variant-request
pipeline consisting of the regex-based variant parser (`VARIANT_RE`,
`parse_variant`), the `VariantRecord` data shape, the per-token cleanup and
batch loop of `get_spliceai_scores`, and the request validation around it.
The external scoring collaborator (`get_delta_scores` together with the
preloaded `Annotator`) is modelled as an abstract function parameter.
-/

/-- Characters matched by the `[0-9]` class of `VARIANT_RE` (`server.py`
line 24): ASCII digits, i.e. code points 48 through 57. -/
def digitChar (c : Char) : Bool := 48 ≤ c.toNat && c.toNat ≤ 57

/-- Characters matched by the chromosome class `[0-9XYMTt]` of `VARIANT_RE`
(`server.py` line 22).  Note the class is case sensitive except for the
lone lowercase `t`. -/
def chromChar (c : Char) : Bool :=
  digitChar c || c == 'X' || c == 'Y' || c == 'M' || c == 'T' || c == 't'

/-- Characters matched by the separator class `[: -]` of `VARIANT_RE`
(`server.py` lines 23 and 25): colon, space and hyphen (the hyphen is
final in the class, hence literal). -/
def sepChar (c : Char) : Bool := c == ':' || c == ' ' || c == '-'

/-- Characters matched by the separator class `[: ->]` of `VARIANT_RE`
(`server.py` line 27).  In Python regex syntax ` ->` inside a class is the
range from space (code 32) to `>` (code 62), which subsumes the colon, so
the class is exactly code points 32 through 62. -/
def sep3Char (c : Char) : Bool := 32 ≤ c.toNat && c.toNat ≤ 62

/-- Characters matched by the allele class `[ACGT]` of `VARIANT_RE`
(`server.py` lines 26 and 28). -/
def baseChar (c : Char) : Bool := c == 'A' || c == 'C' || c == 'G' || c == 'T'

/-- Value of a decimal digit string, as computed by Python `int()` on the
matched position group (`server.py` line 37). -/
def digitsToNat (l : List Char) : Nat :=
  l.foldl (fun n c => 10 * n + (c.toNat - 48)) 0

/-- Core of `VARIANT_RE` matching after the optional `chr` literal: the
sequence `chrom [: -]+ pos [: -]+ ref [: ->]+ alt` with its quantifiers
`{1,2}`, `{1,9}` and `+`.  At every boundary of the regex the adjacent
character classes are disjoint (separators contain no chromosome, digit or
allele characters, and allele characters are above code 62, outside
`[: ->]`), so Python's greedy backtracking matcher is equivalent to this
deterministic longest-run matcher: whenever a greedy choice fails, every
backtracking alternative places a character of one class where a disjoint
class is required.  Returns the four captured groups and the unconsumed
suffix (`re.match` anchors at the start only, trailing input is ignored). -/
def matchCore (s : List Char) :
    Option ((String × Nat × String × String) × List Char) :=
  let k := min 2 (s.takeWhile chromChar).length
  if k = 0 then none else
  let chrom := s.take k
  let s2 := s.drop k
  if (s2.takeWhile sepChar).length = 0 then none else
  let s3 := s2.dropWhile sepChar
  let kp := min 9 (s3.takeWhile digitChar).length
  if kp = 0 then none else
  let posStr := s3.take kp
  let s4 := s3.drop kp
  if (s4.takeWhile sepChar).length = 0 then none else
  let s5 := s4.dropWhile sepChar
  let ref := s5.takeWhile baseChar
  if ref.length = 0 then none else
  let s6 := s5.dropWhile baseChar
  if (s6.takeWhile sep3Char).length = 0 then none else
  let s7 := s6.dropWhile sep3Char
  let alt := s7.takeWhile baseChar
  if alt.length = 0 then none else
  some ((String.mk chrom, digitsToNat posStr, String.mk ref, String.mk alt),
        s7.drop alt.length)

/-- Full `VARIANT_RE.match` (`server.py` lines 21-29): the optional literal
`(chr)?` group followed by `matchCore`.  If the string does not literally
start with `chr`, the optional group matches empty; it can never match
empty when the string does start with `chr`, because the chromosome class
contains no `c`, so the choice is deterministic. -/
def matchVariant (s : List Char) :
    Option ((String × Nat × String × String) × List Char) :=
  matchCore (if s.take 3 = ['c', 'h', 'r'] then s.drop 3 else s)

/-- Embeds `parse_variant` (`server.py` lines 32-37): `none` models the
raised `ValueError`, `some` returns `(match[chrom], int(match[pos]),
match[ref], match[alt])`. -/
def parse_variant (s : String) : Option (String × Nat × String × String) :=
  (matchVariant s.data).map Prod.fst

/-- Embeds the `VariantRecord` class (`server.py` lines 40-48).  The
position is an `int` produced from a digit group, hence modelled as `Nat`. -/
structure VariantRecord where
  chrom : String
  pos : Nat
  ref : String
  alts : List String
deriving DecidableEq

/-- Decimal digit characters, for rendering a `Nat` the way a Python
f-string renders a nonnegative `int`. -/
def decDigit : Nat → Char
  | 0 => '0'
  | 1 => '1'
  | 2 => '2'
  | 3 => '3'
  | 4 => '4'
  | 5 => '5'
  | 6 => '6'
  | 7 => '7'
  | 8 => '8'
  | _ => '9'

/-- Decimal rendering of a nonnegative integer, most significant digit
first, no leading zeros: the digits a Python f-string interpolates for an
`int`. -/
def natToDigits (n : Nat) : List Char :=
  if h : n < 10 then [decDigit n]
  else natToDigits (n / 10) ++ [decDigit (n % 10)]
decreasing_by exact Nat.div_lt_self (by omega) (by omega)

/-- Embeds `VariantRecord.__repr__` (`server.py` lines 47-48):
the f-string rendering `chrom-pos-ref-alts[0]`. -/
def VariantRecord.render (v : VariantRecord) : String :=
  v.chrom ++ "-" ++ String.mk (natToDigits v.pos) ++ "-" ++ v.ref ++ "-"
    ++ v.alts.headD ""

/-- Embeds `SPLICE_AI_SCORE_FIELDS` (`server.py` line 16). -/
def SPLICE_AI_SCORE_FIELDS : List String :=
  ["ALLELE", "SYMBOL", "DS_AG", "DS_AL", "DS_DG", "DS_DL",
   "DP_AG", "DP_AL", "DP_DG", "DP_DL"]

/-- Python `str.split(sep)` for a one-character separator: no run
collapsing, and the empty string splits to one empty token.  Used for
`variants.split(",")` (`server.py` line 76) and `score.split("|")`
(line 106). -/
def splitOnChar (sep : Char) : List Char → List (List Char)
  | [] => [[]]
  | c :: rest =>
    match splitOnChar sep rest with
    | [] => [[]]
    | g :: gs => if c = sep then [] :: g :: gs else (c :: g) :: gs

/-- The token list `variants.split(",")` (`server.py` line 76). -/
def splitVariants (s : String) : List String :=
  (splitOnChar ',' s.data).map String.mk

/-- Python `str.strip(chars)`: removes every leading and every trailing
character satisfying the predicate, in one pass per end. -/
def stripEnds (p : Char → Bool) (l : List Char) : List Char :=
  ((l.dropWhile p).reverse.dropWhile p).reverse

/-- The ASCII whitespace characters stripped by Python `str.strip()`:
space, tab, newline, carriage return, vertical tab, form feed.  (Python
also strips non-ASCII Unicode whitespace, which no claim exercises.) -/
def wsChar (c : Char) : Bool :=
  c == ' ' || c == '\t' || c == '\n' || c == '\r' || c.toNat == 11
    || c.toNat == 12

/-- Embeds the per-token cleanup `variant.strip().strip("'").strip('"')
.strip(",")` (`server.py` line 83): one whitespace trim, then one strip of
enclosing single quotes, then of enclosing double quotes, then of
enclosing commas, in exactly that order, each applied once. -/
def clean (s : String) : String :=
  String.mk (stripEnds (fun c => c == ',')
    (stripEnds (fun c => c.toNat == 34)
      (stripEnds (fun c => c.toNat == 39)
        (stripEnds wsChar s.data))))

/-- Whitespace-only trim of a token, i.e. Python `str.strip()` alone.
Modelled from the spec: the spec's response-length invariant counts the
"non-empty, non-whitespace-only tokens after trimming", a measure the code
itself never computes (the code skips tokens that are empty after the full
cleanup `clean`); this definition expresses the spec's measure so the two
can be compared. -/
def stripWs (s : String) : String := String.mk (stripEnds wsChar s.data)

/-- Outcome of one token, as appended to `results` by
`get_spliceai_scores` (`server.py` lines 90, 97, 101, 107).  In the code
all three shapes are dicts; the two failure shapes are both
`{"variant": ..., "error": ...}` dicts distinguished here by the append
site that produced them (parse failure at line 90, scoring failure at
lines 97 and 101), and the success shape is
`{"variant": ..., "scores": ...}` (line 107). -/
inductive Outcome where
  | success (variant : String) (scores : List (List (String × String)))
  | parseFailure (variant : String) (error : String)
  | scoringFailure (variant : String) (error : String)
deriving DecidableEq

/-- The `"variant"` entry every outcome dict carries. -/
def Outcome.variantText : Outcome → String
  | .success v _ => v
  | .parseFailure v _ => v
  | .scoringFailure v _ => v

/-- Abstract model of the scoring collaborator
`get_delta_scores(record, ANNOTATOR[genome_version], DISTANCE, MASK)`
(`server.py` line 95): either a list of pipe-delimited score strings, or
an exception; the error string models the text `f"{type(e)}: {e}"` the
handler formats from the exception (line 97). -/
def Scorer : Type := VariantRecord → Except String (List String)

/-- Embeds one structured score entry
`dict(zip(SPLICE_AI_SCORE_FIELDS, score.split("|")))` (`server.py`
line 106): the field names are pairwise distinct, so the Python dict is
exactly this association list; `zip` truncates to the shorter of the two
lists. -/
def scoreEntry (score : String) : List (String × String) :=
  List.zip SPLICE_AI_SCORE_FIELDS ((splitOnChar '|' score.data).map String.mk)

/-- Embeds the body of the per-token loop of `get_spliceai_scores`
(`server.py` lines 87-107) for one already-cleaned, non-empty token:
parse (parse failure appends an error outcome), build the record, invoke
the collaborator (exception appends an error outcome), reject an empty
score list, otherwise zip each score string against the field schema. -/
def processOne (scorer : Scorer) (variant : String) : Outcome :=
  match parse_variant variant with
  | none => .parseFailure variant ("Unable to parse variant: " ++ variant)
  | some (chrom, pos, ref, alt) =>
    match scorer ⟨chrom, pos, ref, [alt]⟩ with
    | .error e => .scoringFailure variant e
    | .ok scores =>
      if scores.length = 0 then
        .scoringFailure variant ("unable to compute scores for " ++ variant)
      else
        .success variant (scores.map scoreEntry)

/-- Embeds the loop of `get_spliceai_scores` (`server.py` lines 81-107):
clean each token, skip it when the cleaned form is empty (Python
`if not variant: continue`), otherwise append exactly one outcome. -/
def processTokens (scorer : Scorer) : List String → List Outcome
  | [] => []
  | t :: rest =>
    let v := clean t
    if v = "" then processTokens scorer rest
    else processOne scorer v :: processTokens scorer rest

/-- Embeds the `EXAMPLE` string (`server.py` line 51). -/
def EXAMPLE : String :=
  "For example: /?hg=38&variants=\x27chr8:140300615 C>G\x27"

/-- Error body for a missing or falsy `hg` parameter (`server.py`
line 66). -/
def msgNoHg : String :=
  "\"hg\" not specified. The URL must include hg=37 or hg=38. " ++ EXAMPLE
    ++ "\n"

/-- Error body for an `hg` value other than `37`/`38` (`server.py`
line 69). -/
def msgBadHg (g : String) : String :=
  "Invalid \"hg\" value: \"" ++ g
    ++ "\". The value must be either \"37\" or \"38\". " ++ EXAMPLE ++ "\n"

/-- Error body for a missing or falsy `variants` parameter (`server.py`
line 73). -/
def msgNoVariants : String :=
  "\"variants\" not specified. The URL must include a \"variants\" arg. "
    ++ EXAMPLE ++ "\n"

/-- Embeds the request-level flow of `get_spliceai_scores` (`server.py`
lines 64-109) for a request whose `variants` parameter, when present, is a
string (the non-string 400 branch at line 78 and the params/JSON merging
are outside this model): validate `hg` (absent or empty is falsy in
Python, then membership in `37`/`38`), validate `variants` (absent or
empty is falsy), split on commas and run the per-token loop with the
annotator selected by the genome version.  `Except.error` carries the 400
response body and status, `Except.ok` the JSON-serialized outcome list. -/
def handler (hg : Option String) (variants : Option String)
    (annot : String → Scorer) : Except (String × Nat) (List Outcome) :=
  match hg with
  | none => .error (msgNoHg, 400)
  | some g =>
    if g = "" then .error (msgNoHg, 400)
    else if g ≠ "37" ∧ g ≠ "38" then .error (msgBadHg g, 400)
    else
      match variants with
      | none => .error (msgNoVariants, 400)
      | some v =>
        if v = "" then .error (msgNoVariants, 400)
        else .ok (processTokens (annot g) (splitVariants v))

/-- A token that is two single-quote characters and nothing else. -/
def twoQuotes : String := String.mk [Char.ofNat 39, Char.ofNat 39]

/-! ### List run lemmas used to evaluate the matcher symbolically -/

lemma takeWhile_all_eq (p : Char → Bool) (l : List Char)
    (h : ∀ x ∈ l, p x = true) : l.takeWhile p = l := by
  induction l with
  | nil => rfl
  | cons x xs ih =>
    rw [List.takeWhile_cons, h x (by simp)]
    simp [ih fun y hy => h y (by simp [hy])]

lemma takeWhile_append_all (p : Char → Bool) (l m : List Char)
    (h : ∀ x ∈ l, p x = true) :
    (l ++ m).takeWhile p = l ++ m.takeWhile p := by
  induction l with
  | nil => rfl
  | cons x xs ih =>
    rw [List.cons_append, List.takeWhile_cons, h x (by simp)]
    simp [ih fun y hy => h y (by simp [hy])]

lemma dropWhile_append_all (p : Char → Bool) (l m : List Char)
    (h : ∀ x ∈ l, p x = true) :
    (l ++ m).dropWhile p = m.dropWhile p := by
  induction l with
  | nil => rfl
  | cons x xs ih =>
    rw [List.cons_append, List.dropWhile_cons, h x (by simp)]
    simp only []
    exact ih fun y hy => h y (by simp [hy])

lemma takeWhile_cons_neg (p : Char → Bool) (x : Char) (m : List Char)
    (h : p x = false) : (x :: m).takeWhile p = [] := by
  rw [List.takeWhile_cons, h]
  simp

lemma dropWhile_cons_neg (p : Char → Bool) (x : Char) (m : List Char)
    (h : p x = false) : (x :: m).dropWhile p = x :: m := by
  rw [List.dropWhile_cons, h]
  simp

lemma mem_takeWhile_sat (p : Char → Bool) (l : List Char) :
    ∀ x ∈ l.takeWhile p, p x = true := by
  induction l with
  | nil => simp
  | cons y ys ih =>
    intro x hx
    rw [List.takeWhile_cons] at hx
    by_cases hy : p y = true
    · rw [hy] at hx
      simp at hx
      rcases hx with rfl | hx
      · exact hy
      · exact ih x hx
    · rw [Bool.not_eq_true] at hy
      rw [hy] at hx
      simp at hx

lemma drop_takeWhile_length (p : Char → Bool) (l : List Char) :
    l.drop (l.takeWhile p).length = l.dropWhile p := by
  induction l with
  | nil => rfl
  | cons x xs ih =>
    rw [List.takeWhile_cons, List.dropWhile_cons]
    by_cases hx : p x = true
    · rw [hx]
      simpa using ih
    · rw [Bool.not_eq_true] at hx
      rw [hx]
      simp

lemma head_dropWhile_neg (p : Char → Bool) (l : List Char) :
    ∀ x ∈ (l.dropWhile p).head?, p x = false := by
  induction l with
  | nil => simp
  | cons y ys ih =>
    intro x hx
    rw [List.dropWhile_cons] at hx
    by_cases hy : p y = true
    · rw [hy] at hx
      exact ih x hx
    · rw [Bool.not_eq_true] at hy
      rw [hy] at hx
      simp at hx
      exact hx ▸ hy

lemma take_le_takeWhile_sat (p : Char → Bool) (l : List Char) (k : Nat)
    (hk : k ≤ (l.takeWhile p).length) : ∀ x ∈ l.take k, p x = true := by
  have : l.take k = (l.takeWhile p).take k := by
    conv_lhs => rw [← List.takeWhile_append_dropWhile (p := p) (l := l)]
    rw [List.take_append_eq_append_take,
        Nat.sub_eq_zero_of_le hk, List.take_zero, List.append_nil]
  rw [this]
  intro x hx
  exact mem_takeWhile_sat p l x (List.take_subset k _ hx)

/-! ### Character class facts -/

lemma sepChar_cases {c : Char} (h : sepChar c = true) :
    c = ':' ∨ c = ' ' ∨ c = '-' := by
  simp only [sepChar, Bool.or_eq_true, beq_iff_eq] at h
  tauto

lemma baseChar_cases {c : Char} (h : baseChar c = true) :
    c = 'A' ∨ c = 'C' ∨ c = 'G' ∨ c = 'T' := by
  simp only [baseChar, Bool.or_eq_true, beq_iff_eq] at h
  tauto

lemma sep_not_chrom {c : Char} (h : sepChar c = true) : chromChar c = false := by
  rcases sepChar_cases h with rfl | rfl | rfl <;> decide

lemma sep_not_digit {c : Char} (h : sepChar c = true) : digitChar c = false := by
  rcases sepChar_cases h with rfl | rfl | rfl <;> decide

lemma digit_not_sep {c : Char} (h : digitChar c = true) : sepChar c = false := by
  cases hs : sepChar c
  · rfl
  · rcases sepChar_cases hs with rfl | rfl | rfl <;> simp [digitChar] at h

lemma base_not_sep {c : Char} (h : baseChar c = true) : sepChar c = false := by
  rcases baseChar_cases h with rfl | rfl | rfl | rfl <;> decide

lemma base_not_sep3 {c : Char} (h : baseChar c = true) : sep3Char c = false := by
  rcases baseChar_cases h with rfl | rfl | rfl | rfl <;> decide

lemma sep3_not_base {c : Char} (h : sep3Char c = true) : baseChar c = false := by
  cases hb : baseChar c
  · rfl
  · rcases baseChar_cases hb with rfl | rfl | rfl | rfl <;> simp [sep3Char] at h

lemma chrom_ne_c {c : Char} (h : chromChar c = true) : c ≠ 'c' := by
  intro hc
  rw [hc] at h
  simp [chromChar, digitChar] at h

/-! ### Decimal digit facts -/

lemma decDigit_toNat {n : Nat} (h : n < 10) : (decDigit n).toNat = 48 + n := by
  interval_cases n <;> rfl

lemma decDigit_digit {n : Nat} (h : n < 10) : digitChar (decDigit n) = true := by
  interval_cases n <;> rfl

lemma digitsToNat_concat (l : List Char) (c : Char) :
    digitsToNat (l ++ [c]) = 10 * digitsToNat l + (c.toNat - 48) := by
  simp [digitsToNat, List.foldl_append]

lemma digitsToNat_natToDigits (n : Nat) :
    digitsToNat (natToDigits n) = n := by
  induction n using Nat.strong_induction_on with
  | _ n ih =>
    rw [natToDigits]
    by_cases h : n < 10
    · simp only [h, dite_true]
      simp [digitsToNat, decDigit_toNat h]
    · simp only [h, dite_false]
      rw [digitsToNat_concat, ih (n / 10) (Nat.div_lt_self (by omega) (by omega)),
          decDigit_toNat (Nat.mod_lt n (by omega))]
      omega

lemma natToDigits_all_digit (n : Nat) :
    ∀ x ∈ natToDigits n, digitChar x = true := by
  induction n using Nat.strong_induction_on with
  | _ n ih =>
    rw [natToDigits]
    by_cases h : n < 10
    · simp only [h, dite_true]
      intro x hx
      simp at hx
      exact hx ▸ decDigit_digit h
    · simp only [h, dite_false]
      intro x hx
      rw [List.mem_append] at hx
      rcases hx with hx | hx
      · exact ih (n / 10) (Nat.div_lt_self (by omega) (by omega)) x hx
      · simp at hx
        exact hx ▸ decDigit_digit (Nat.mod_lt n (by omega))

lemma natToDigits_ne_nil (n : Nat) : natToDigits n ≠ [] := by
  rw [natToDigits]
  by_cases h : n < 10
  · simp [h]
  · simp [h]

lemma natToDigits_length_le : ∀ (k n : Nat), 0 < k → n < 10 ^ k →
    (natToDigits n).length ≤ k := by
  intro k
  induction k with
  | zero => omega
  | succ k ih =>
    intro n _ hn
    rw [natToDigits]
    by_cases h : n < 10
    · simp [h]
    · simp only [h, dite_false, List.length_append, List.length_cons,
        List.length_nil]
      have hk : 0 < k := by
        by_contra hk0
        have : k = 0 := by omega
        subst this
        simp at hn
        omega
      have hdiv : n / 10 < 10 ^ k := by
        rw [Nat.div_lt_iff_lt_mul (by omega)]
        calc n < 10 ^ (k + 1) := hn
        _ = 10 ^ k * 10 := by ring
      have := ih (n / 10) hk hdiv
      omega

lemma digitsToNat_lt (l : List Char) (h : ∀ x ∈ l, digitChar x = true) :
    digitsToNat l < 10 ^ l.length := by
  induction l using List.reverseRecOn with
  | nil => simp [digitsToNat]
  | append_singleton l c ih =>
    rw [digitsToNat_concat]
    have hl : digitsToNat l < 10 ^ l.length :=
      ih fun x hx => h x (by simp [hx])
    have hc : digitChar c = true := h c (by simp)
    have hc9 : c.toNat - 48 ≤ 9 := by
      simp [digitChar] at hc
      omega
    rw [List.length_append, List.length_singleton, pow_succ]
    omega

/-! ### Evaluating the matcher on a structured decomposition -/

lemma takeWhile_length_le (p : Char → Bool) (l : List Char) :
    (l.takeWhile p).length ≤ l.length := by
  induction l with
  | nil => simp
  | cons x xs ih =>
    rw [List.takeWhile_cons]
    by_cases hx : p x = true
    · rw [hx]
      simpa using ih
    · rw [Bool.not_eq_true] at hx
      rw [hx]
      simp

lemma head?_append_ne (l m : List Char) (h : l ≠ []) :
    (l ++ m).head? = l.head? := by
  cases l with
  | nil => exact absurd rfl h
  | cons x xs => simp

lemma mem_of_head? {x : Char} {l : List Char} (h : x ∈ l.head?) : x ∈ l := by
  cases l with
  | nil => simp at h
  | cons y ys =>
    simp at h
    simp [h]

lemma takeWhile_run_append (p : Char → Bool) (l m : List Char)
    (hl : ∀ x ∈ l, p x = true) (hm : ∀ x ∈ m.head?, p x = false) :
    (l ++ m).takeWhile p = l ∧ (l ++ m).dropWhile p = m := by
  constructor
  · rw [takeWhile_append_all p l m hl]
    cases m with
    | nil => simp
    | cons y ys =>
      rw [takeWhile_cons_neg _ _ _ (hm y (by simp))]
      simp
  · rw [dropWhile_append_all p l m hl]
    cases m with
    | nil => simp
    | cons y ys => exact dropWhile_cons_neg _ _ _ (hm y (by simp))

/-- A structured decomposition of its input forces `matchCore` to succeed
with exactly the decomposition's groups: the chromosome run (one or two
class characters), a separator run, a digit run of at most nine digits, a
separator run, the reference run, a `[: ->]` run, the alternate run, and a
trailing remainder that does not begin with an allele character. -/
lemma matchCore_build (c S1 D S2 R S3 A tail : List Char)
    (hc0 : c ≠ []) (hc2 : c.length ≤ 2) (hca : ∀ x ∈ c, chromChar x = true)
    (hS10 : S1 ≠ []) (hS1a : ∀ x ∈ S1, sepChar x = true)
    (hD0 : D ≠ []) (hD9 : D.length ≤ 9) (hDa : ∀ x ∈ D, digitChar x = true)
    (hS20 : S2 ≠ []) (hS2a : ∀ x ∈ S2, sepChar x = true)
    (hR0 : R ≠ []) (hRa : ∀ x ∈ R, baseChar x = true)
    (hS30 : S3 ≠ []) (hS3a : ∀ x ∈ S3, sep3Char x = true)
    (hA0 : A ≠ []) (hAa : ∀ x ∈ A, baseChar x = true)
    (ht : ∀ x ∈ tail.head?, baseChar x = false) :
    matchCore (c ++ (S1 ++ (D ++ (S2 ++ (R ++ (S3 ++ (A ++ tail))))))) =
      some ((String.mk c, digitsToNat D, String.mk R, String.mk A), tail) := by
  have hne1 : ∀ x ∈ (S1 ++ (D ++ (S2 ++ (R ++ (S3 ++ (A ++ tail)))))).head?,
      chromChar x = false := by
    intro x hx
    rw [head?_append_ne _ _ hS10] at hx
    exact sep_not_chrom (hS1a x (mem_of_head? hx))
  have hne2 : ∀ x ∈ (D ++ (S2 ++ (R ++ (S3 ++ (A ++ tail))))).head?,
      sepChar x = false := by
    intro x hx
    rw [head?_append_ne _ _ hD0] at hx
    exact digit_not_sep (hDa x (mem_of_head? hx))
  have hne3 : ∀ x ∈ (S2 ++ (R ++ (S3 ++ (A ++ tail)))).head?,
      digitChar x = false := by
    intro x hx
    rw [head?_append_ne _ _ hS20] at hx
    exact sep_not_digit (hS2a x (mem_of_head? hx))
  have hne4 : ∀ x ∈ (R ++ (S3 ++ (A ++ tail))).head?, sepChar x = false := by
    intro x hx
    rw [head?_append_ne _ _ hR0] at hx
    exact base_not_sep (hRa x (mem_of_head? hx))
  have hne5 : ∀ x ∈ (S3 ++ (A ++ tail)).head?, baseChar x = false := by
    intro x hx
    rw [head?_append_ne _ _ hS30] at hx
    exact sep3_not_base (hS3a x (mem_of_head? hx))
  have hne6 : ∀ x ∈ (A ++ tail).head?, sep3Char x = false := by
    intro x hx
    rw [head?_append_ne _ _ hA0] at hx
    exact base_not_sep3 (hAa x (mem_of_head? hx))
  obtain ⟨t1, d1⟩ := takeWhile_run_append chromChar c _ hca hne1
  obtain ⟨t2, d2⟩ := takeWhile_run_append sepChar S1 _ hS1a hne2
  obtain ⟨t3, d3⟩ := takeWhile_run_append digitChar D _ hDa hne3
  obtain ⟨t4, d4⟩ := takeWhile_run_append sepChar S2 _ hS2a hne4
  obtain ⟨t5, d5⟩ := takeWhile_run_append baseChar R _ hRa hne5
  obtain ⟨t6, d6⟩ := takeWhile_run_append sep3Char S3 _ hS3a hne6
  obtain ⟨t7, d7⟩ := takeWhile_run_append baseChar A tail hAa ht
  have hclen : c.length ≠ 0 := by
    intro h
    exact hc0 (List.eq_nil_of_length_eq_zero h)
  have hS1len : S1.length ≠ 0 := by
    intro h
    exact hS10 (List.eq_nil_of_length_eq_zero h)
  have hDlen : D.length ≠ 0 := by
    intro h
    exact hD0 (List.eq_nil_of_length_eq_zero h)
  have hS2len : S2.length ≠ 0 := by
    intro h
    exact hS20 (List.eq_nil_of_length_eq_zero h)
  have hRlen : R.length ≠ 0 := by
    intro h
    exact hR0 (List.eq_nil_of_length_eq_zero h)
  have hS3len : S3.length ≠ 0 := by
    intro h
    exact hS30 (List.eq_nil_of_length_eq_zero h)
  have hAlen : A.length ≠ 0 := by
    intro h
    exact hA0 (List.eq_nil_of_length_eq_zero h)
  simp only [matchCore]
  rw [t1, Nat.min_eq_right hc2, if_neg hclen, List.take_left, List.drop_left,
      t2, if_neg hS1len, d2,
      t3, Nat.min_eq_right hD9, if_neg hDlen, List.take_left, List.drop_left,
      t4, if_neg hS2len, d4,
      t5, if_neg hRlen, d5,
      t6, if_neg hS3len, d6,
      t7, if_neg hAlen, List.drop_left]

/-- Inversion: a successful `matchCore` run decomposes its input into the
structured form of `matchCore_build`, with the captured groups well-formed
and the remainder not beginning with an allele character. -/
lemma matchCore_inv (s : List Char) (c : String) (p : Nat) (r a : String)
    (rest : List Char) (h : matchCore s = some ((c, p, r, a), rest)) :
    ∃ S1 D S2 S3,
      s = c.data ++ (S1 ++ (D ++ (S2 ++ (r.data ++ (S3 ++ (a.data ++ rest))))))
      ∧ (c.data ≠ [] ∧ c.data.length ≤ 2 ∧ ∀ x ∈ c.data, chromChar x = true)
      ∧ (S1 ≠ [] ∧ ∀ x ∈ S1, sepChar x = true)
      ∧ (D ≠ [] ∧ D.length ≤ 9 ∧ (∀ x ∈ D, digitChar x = true)
          ∧ digitsToNat D = p)
      ∧ (S2 ≠ [] ∧ ∀ x ∈ S2, sepChar x = true)
      ∧ (r.data ≠ [] ∧ ∀ x ∈ r.data, baseChar x = true)
      ∧ (S3 ≠ [] ∧ ∀ x ∈ S3, sep3Char x = true)
      ∧ (a.data ≠ [] ∧ ∀ x ∈ a.data, baseChar x = true)
      ∧ (∀ x ∈ rest.head?, baseChar x = false) := by
  simp only [matchCore] at h
  set k := min 2 (s.takeWhile chromChar).length with hkdef
  have h1 : ¬ k = 0 := by
    intro h0
    rw [if_pos h0] at h
    exact Option.noConfusion h
  rw [if_neg h1] at h
  set chrom := s.take k with hchromdef
  set s2 := s.drop k with hs2def
  set S1 := s2.takeWhile sepChar with hS1def
  have h2 : ¬ S1.length = 0 := by
    intro h0
    rw [if_pos h0] at h
    exact Option.noConfusion h
  rw [if_neg h2] at h
  set s3 := s2.dropWhile sepChar with hs3def
  set kp := min 9 (s3.takeWhile digitChar).length with hkpdef
  have h3 : ¬ kp = 0 := by
    intro h0
    rw [if_pos h0] at h
    exact Option.noConfusion h
  rw [if_neg h3] at h
  set D := s3.take kp with hDdef
  set s4 := s3.drop kp with hs4def
  set S2 := s4.takeWhile sepChar with hS2def
  have h4 : ¬ S2.length = 0 := by
    intro h0
    rw [if_pos h0] at h
    exact Option.noConfusion h
  rw [if_neg h4] at h
  set s5 := s4.dropWhile sepChar with hs5def
  set R := s5.takeWhile baseChar with hRdef
  have h5 : ¬ R.length = 0 := by
    intro h0
    rw [if_pos h0] at h
    exact Option.noConfusion h
  rw [if_neg h5] at h
  set s6 := s5.dropWhile baseChar with hs6def
  set S3 := s6.takeWhile sep3Char with hS3def
  have h6 : ¬ S3.length = 0 := by
    intro h0
    rw [if_pos h0] at h
    exact Option.noConfusion h
  rw [if_neg h6] at h
  set s7 := s6.dropWhile sep3Char with hs7def
  set A := s7.takeWhile baseChar with hAdef
  have h7 : ¬ A.length = 0 := by
    intro h0
    rw [if_pos h0] at h
    exact Option.noConfusion h
  rw [if_neg h7] at h
  simp only [Option.some.injEq, Prod.mk.injEq] at h
  obtain ⟨⟨hc', hp', hr', ha'⟩, hrest⟩ := h
  have hkrun : k ≤ (s.takeWhile chromChar).length := Nat.min_le_right _ _
  have hks : k ≤ s.length :=
    le_trans hkrun (takeWhile_length_le chromChar s)
  have hchromlen : chrom.length = k := by
    rw [hchromdef, List.length_take]
    exact Nat.min_eq_left hks
  have hkprun : kp ≤ (s3.takeWhile digitChar).length := Nat.min_le_right _ _
  have hkps : kp ≤ s3.length :=
    le_trans hkprun (takeWhile_length_le digitChar s3)
  have hDlen : D.length = kp := by
    rw [hDdef, List.length_take]
    exact Nat.min_eq_left hkps
  have hcdata : c.data = chrom := by
    rw [← hc']
  have hrdata : r.data = R := by
    rw [← hr']
  have hadata : a.data = A := by
    rw [← ha']
  have e7 : A ++ rest = s7 := by
    rw [← hrest, hAdef, drop_takeWhile_length, List.takeWhile_append_dropWhile]
  have e6 : S3 ++ s7 = s6 := by
    rw [hS3def, hs7def, List.takeWhile_append_dropWhile]
  have e5 : R ++ s6 = s5 := by
    rw [hRdef, hs6def, List.takeWhile_append_dropWhile]
  have e4 : S2 ++ s5 = s4 := by
    rw [hS2def, hs5def, List.takeWhile_append_dropWhile]
  have e3 : D ++ s4 = s3 := by
    rw [hDdef, hs4def, List.take_append_drop]
  have e2 : S1 ++ s3 = s2 := by
    rw [hS1def, hs3def, List.takeWhile_append_dropWhile]
  have e1 : chrom ++ s2 = s := by
    rw [hchromdef, hs2def, List.take_append_drop]
  refine ⟨S1, D, S2, S3, ?_, ?_, ?_, ?_, ?_, ?_, ?_, ?_, ?_⟩
  · rw [hcdata, hrdata, hadata, e7, e6, e5, e4, e3, e2, e1]
  · refine ⟨?_, ?_, ?_⟩
    · rw [hcdata]
      intro h0
      rw [h0] at hchromlen
      exact h1 (by simpa using hchromlen.symm)
    · rw [hcdata, hchromlen]
      exact le_trans (hkdef ▸ Nat.min_le_left _ _) (le_refl 2)
    · rw [hcdata, hchromdef]
      exact take_le_takeWhile_sat chromChar s k hkrun
  · refine ⟨?_, ?_⟩
    · intro h0
      rw [h0] at h2
      exact h2 rfl
    · rw [hS1def]
      exact mem_takeWhile_sat sepChar s2
  · refine ⟨?_, ?_, ?_, hp'⟩
    · intro h0
      rw [h0] at hDlen
      exact h3 (by simpa using hDlen.symm)
    · rw [hDlen]
      exact hkpdef ▸ Nat.min_le_left _ _
    · rw [hDdef]
      exact take_le_takeWhile_sat digitChar s3 kp hkprun
  · refine ⟨?_, ?_⟩
    · intro h0
      rw [h0] at h4
      exact h4 rfl
    · rw [hS2def]
      exact mem_takeWhile_sat sepChar s4
  · refine ⟨?_, ?_⟩
    · rw [hrdata]
      intro h0
      rw [h0] at h5
      exact h5 rfl
    · rw [hrdata, hRdef]
      exact mem_takeWhile_sat baseChar s5
  · refine ⟨?_, ?_⟩
    · intro h0
      rw [h0] at h6
      exact h6 rfl
    · rw [hS3def]
      exact mem_takeWhile_sat sep3Char s6
  · refine ⟨?_, ?_⟩
    · rw [hadata]
      intro h0
      rw [h0] at h7
      exact h7 rfl
    · rw [hadata, hAdef]
      exact mem_takeWhile_sat baseChar s7
  · rw [← hrest, hAdef, drop_takeWhile_length]
    exact head_dropWhile_neg baseChar s7

/-! ### Batch loop and `chr` literal helpers -/

lemma processTokens_eq (scorer : Scorer) (ts : List String) :
    processTokens scorer ts =
      ((ts.map clean).filter (fun t => !(t == ""))).map (processOne scorer) := by
  induction ts with
  | nil => rfl
  | cons t rest ih =>
    simp only [processTokens, List.map_cons, List.filter_cons]
    by_cases hv : clean t = ""
    · rw [if_pos hv, ih]
      simp [hv]
    · rw [if_neg hv, ih]
      have : (!(clean t == "")) = true := by
        simp [hv]
      rw [this]
      simp

lemma matchVariant_no_chr (x : Char) (l : List Char) (hx : x ≠ 'c') :
    matchVariant (x :: l) = matchCore (x :: l) := by
  simp only [matchVariant]
  have hne : ¬ ((x :: l).take 3 = ['c', 'h', 'r']) := by
    intro h
    rw [List.take_succ_cons] at h
    injection h with h1 _
    exact hx h1
  rw [if_neg hne]

lemma matchVariant_chr (l : List Char) :
    matchVariant (['c', 'h', 'r'] ++ l) = matchCore l := by
  simp only [matchVariant]
  rw [if_pos (by rfl)]
  rfl

lemma parse_variant_inv (s : String) (c : String) (p : Nat) (r a : String)
    (h : parse_variant s = some (c, p, r, a)) :
    ∃ rest, matchVariant s.data = some ((c, p, r, a), rest) := by
  simp only [parse_variant] at h
  cases hm : matchVariant s.data with
  | none =>
    rw [hm] at h
    simp at h
  | some v =>
    rw [hm] at h
    simp at h
    exact ⟨v.2, by rw [← h]⟩

lemma matchVariant_as_core (s : List Char) :
    matchVariant s = matchCore (if s.take 3 = ['c', 'h', 'r'] then s.drop 3
      else s) := rfl

lemma variantText_processOne (scorer : Scorer) (v : String) :
    (processOne scorer v).variantText = v := by
  cases hp : parse_variant v with
  | none => simp [processOne, hp, Outcome.variantText]
  | some q =>
    obtain ⟨c, p, r, a⟩ := q
    cases hs : scorer ⟨c, p, r, [a]⟩ with
    | error e => simp [processOne, hp, hs, Outcome.variantText]
    | ok scores =>
      by_cases h0 : scores.length = 0
      · simp [processOne, hp, hs, h0, Outcome.variantText]
      · simp [processOne, hp, hs, h0, Outcome.variantText]

/-! ### Claim theorems -/

/-- C2 (code defect): a collaborator score string with a field count
different from the 10-field schema is not surfaced as a scoring failure;
`dict(zip(...))` silently truncates, so a 2-field score string yields a
`Success` outcome whose map has only the first two schema fields. -/
theorem c2_zip_truncates_mismatched_fields :
    processOne (fun _ => Except.ok ["G|GENE1"]) "chr1:100:A>G" =
      Outcome.success "chr1:100:A>G"
        [[("ALLELE", "G"), ("SYMBOL", "GENE1")]] := by
  rfl

/-- C4, counterexample: the parser accepts the token `1-0-A-G`, whose
position field `0` is not a positive integer, refuting the claim that
every accepted position is positive. -/
theorem c4_position_zero_counterexample :
    parse_variant "1-0-A-G" = some ("1", 0, "A", "G") ∧ ¬ (0 < 0) := by
  exact ⟨rfl, by omega⟩

/-- C4, amended: for every token the parser accepts, the parsed position
comes from a field of one to nine decimal digits and is therefore a
nonnegative integer below `10 ^ 9`; zero (and leading zeros) are accepted,
so positivity is not guaranteed. -/
theorem c4_position_lt_1e9 (s c : String) (p : Nat) (r a : String)
    (h : parse_variant s = some (c, p, r, a)) : p < 1000000000 := by
  obtain ⟨rest, hm⟩ := parse_variant_inv s c p r a h
  rw [matchVariant_as_core] at hm
  obtain ⟨S1, D, S2, S3, hdec, hc, hS1, hD, hS2, hr, hS3, ha, hrest⟩ :=
    matchCore_inv _ _ _ _ _ _ hm
  obtain ⟨hD0, hD9, hDa, hDp⟩ := hD
  rw [← hDp]
  calc digitsToNat D < 10 ^ D.length := digitsToNat_lt D hDa
  _ ≤ 10 ^ 9 := Nat.pow_le_pow_right (by omega) hD9
  _ = 1000000000 := by norm_num

/-- C4, witness for the amended theorem at the token `1-100-A-G`. -/
theorem c4_position_lt_1e9_witness :
    parse_variant "1-100-A-G" = some ("1", 100, "A", "G") ∧
      100 < 1000000000 :=
  ⟨rfl, c4_position_lt_1e9 "1-100-A-G" "1" 100 "A" "G" rfl⟩

/-- C8: a successfully parsed token for which the collaborator returns an
empty score list yields a `ScoringFailure` outcome with the
`unable to compute scores` message, never a `Success` with an empty score
list. -/
theorem c8_empty_scores_failure (scorer : Scorer) (v c : String) (p : Nat)
    (r a : String) (hp : parse_variant v = some (c, p, r, a))
    (hs : scorer ⟨c, p, r, [a]⟩ = Except.ok []) :
    processOne scorer v =
      Outcome.scoringFailure v ("unable to compute scores for " ++ v) := by
  simp [processOne, hp, hs]

/-- C8, witness at the token `1-100-A-G` with a collaborator stub that
returns an empty score list. -/
theorem c8_empty_scores_failure_witness :
    parse_variant "1-100-A-G" = some ("1", 100, "A", "G") ∧
    processOne (fun _ => Except.ok []) "1-100-A-G" =
      Outcome.scoringFailure "1-100-A-G"
        ("unable to compute scores for " ++ "1-100-A-G") :=
  ⟨rfl, c8_empty_scores_failure (fun _ => Except.ok []) "1-100-A-G"
    "1" 100 "A" "G" rfl rfl⟩

/-- C9: every outcome echoes the cleaned token text (after whitespace
trimming and quote/comma stripping) in its `variant` field, for all three
outcome kinds: the `variant` fields of the response are exactly the
cleaned non-empty tokens, in order. -/
theorem c9_outcome_echoes_cleaned_token (scorer : Scorer) (ts : List String) :
    (processTokens scorer ts).map Outcome.variantText =
      (ts.map clean).filter (fun t => !(t == "")) := by
  rw [processTokens_eq, List.map_map]
  have hco : Outcome.variantText ∘ processOne scorer = id := by
    funext v
    simp only [Function.comp_apply, id_eq]
    exact variantText_processOne scorer v
  rw [hco, List.map_id]

/-- C10: the cleanup applies, once each and in this order, a whitespace
trim, a single-quote strip, a double-quote strip and a comma strip, and
whitespace is not re-trimmed after quote removal: the token consisting of
a double quote, a space, `chr1:100:A>G` and a double quote cleans to a
string that still starts with a space, and its outcome is a
`ParseFailure`, not a `Success`. -/
theorem c10_cleanup_order_no_retrim (scorer : Scorer) :
    clean "\" chr1:100:A>G\"" = " chr1:100:A>G" ∧
    processTokens scorer ["\" chr1:100:A>G\""] =
      [Outcome.parseFailure " chr1:100:A>G"
        "Unable to parse variant:  chr1:100:A>G"] := by
  refine ⟨rfl, ?_⟩
  have hcl : clean "\" chr1:100:A>G\"" = " chr1:100:A>G" := rfl
  have hpf : parse_variant " chr1:100:A>G" = none := rfl
  simp only [processTokens, hcl]
  rw [if_neg (by simp : ¬ (" chr1:100:A>G" : String) = "")]
  simp only [processOne, hpf]
  rfl

/-- C1, counterexample: a valid request whose only token is two single
quotes produces an empty response, although that token is non-empty after
whitespace trimming (the spec's "non-empty trimmed tokens" count is 1),
because the code drops tokens that become empty only after the quote and
comma strips. -/
theorem c1_trimmed_count_counterexample :
    handler (some "38") (some twoQuotes) (fun _ _ => Except.ok []) =
      Except.ok [] ∧
    (((splitVariants twoQuotes).map stripWs).filter
      (fun t => !(t == ""))).length = 1 :=
  ⟨rfl, rfl⟩

/-- C1, amended: for every valid request (genome selector `37` or `38`,
non-empty variants string), the response is exactly one outcome, in input
order, per token that is non-empty after the full cleanup (whitespace
trim, then enclosing quote and comma strips); tokens that clean to empty
produce no outcome, so the response length equals the number of
cleaned-non-empty tokens. -/
theorem c1_response_one_outcome_per_cleaned_token (g v : String)
    (annot : String → Scorer) (hg : g = "37" ∨ g = "38") (hv : v ≠ "") :
    handler (some g) (some v) annot =
      Except.ok ((((splitVariants v).map clean).filter
        (fun t => !(t == ""))).map (processOne (annot g))) ∧
    (processTokens (annot g) (splitVariants v)).length =
      (((splitVariants v).map clean).filter (fun t => !(t == ""))).length := by
  have hg0 : ¬ g = "" := by
    rcases hg with rfl | rfl <;> simp
  have hg37 : ¬ (g ≠ "37" ∧ g ≠ "38") := by
    rcases hg with rfl | rfl <;> simp
  constructor
  · simp only [handler]
    rw [if_neg hg0, if_neg hg37, if_neg hv, processTokens_eq]
  · rw [processTokens_eq, List.length_map]

/-- C1, witness for the amended theorem at the request
`hg=38, variants=1-100-A-G` with a trivial collaborator stub. -/
theorem c1_response_one_outcome_per_cleaned_token_witness :
    (("38" : String) = "37" ∨ ("38" : String) = "38") ∧
    ("1-100-A-G" : String) ≠ "" ∧
    (handler (some "38") (some "1-100-A-G") (fun _ _ => Except.ok []) =
      Except.ok ((((splitVariants "1-100-A-G").map clean).filter
        (fun t => !(t == ""))).map
          (processOne ((fun _ _ => Except.ok []) "38"))) ∧
    (processTokens ((fun _ _ => Except.ok []) "38")
        (splitVariants "1-100-A-G")).length =
      (((splitVariants "1-100-A-G").map clean).filter
        (fun t => !(t == ""))).length) :=
  ⟨Or.inr rfl, by simp,
    c1_response_one_outcome_per_cleaned_token "38" "1-100-A-G"
      (fun _ _ => Except.ok []) (Or.inr rfl) (by simp)⟩

/-- C7, counterexample: the token `,` is non-empty and does not match the
variant grammar, yet the batch produces no outcome at all for it (its
cleaned form is empty, so it is skipped), refuting the claim that every
non-empty unparseable token yields a `ParseFailure` outcome. -/
theorem c7_quote_token_counterexample :
    (("," : String) ≠ "") ∧ parse_variant "," = none ∧
    processTokens (fun _ => Except.ok []) [","] = [] :=
  ⟨by simp, rfl, rfl⟩

/-- C7, amended: for every token whose cleaned form is non-empty and does
not match the variant grammar, the batch holds, at that token's position
among the cleaned non-empty tokens, a `ParseFailure` outcome carrying the
cleaned token text and the parse error message; the response keeps one
slot per cleaned non-empty token, so a malformed variant never aborts the
batch. -/
theorem c7_parse_failure_slot_amended (scorer : Scorer) (ts : List String)
    (i : Nat) (v : String)
    (hv : (((ts.map clean).filter (fun t => !(t == "")))[i]?) = some v)
    (hp : parse_variant v = none) :
    (processTokens scorer ts).length =
      ((ts.map clean).filter (fun t => !(t == ""))).length ∧
    (processTokens scorer ts)[i]? =
      some (Outcome.parseFailure v ("Unable to parse variant: " ++ v)) := by
  constructor
  · rw [processTokens_eq, List.length_map]
  · rw [processTokens_eq, List.getElem?_map, hv]
    simp [processOne, hp]

/-- C7, witness for the amended theorem at the single-token batch
`garbage`. -/
theorem c7_parse_failure_slot_amended_witness :
    ((["garbage"].map clean).filter (fun t => !(t == "")))[0]? =
      some "garbage" ∧
    parse_variant "garbage" = none ∧
    ((processTokens (fun _ => Except.ok []) ["garbage"]).length =
      ((["garbage"].map clean).filter (fun t => !(t == ""))).length ∧
    (processTokens (fun _ => Except.ok []) ["garbage"])[0]? =
      some (Outcome.parseFailure "garbage"
        ("Unable to parse variant: " ++ "garbage"))) :=
  ⟨rfl, rfl, c7_parse_failure_slot_amended (fun _ => Except.ok [])
    ["garbage"] 0 "garbage" rfl rfl⟩

lemma mk_data (s : String) : String.mk s.data = s := rfl

lemma data_append (x y : String) : (x ++ y).data = x.data ++ y.data := rfl

lemma chrom_build_helper (cd : List Char) (h0 : cd ≠ []) (h2 : cd.length ≤ 2)
    (ha : ∀ x ∈ cd, chromChar x = true) :
    matchCore (cd ++ ['-', '1', '0', '0', '-', 'A', '-', 'G']) =
      some ((String.mk cd, 100, "A", "G"), []) := by
  have hb := matchCore_build cd ['-'] ['1', '0', '0'] ['-'] ['A'] ['-'] ['G']
    [] h0 h2 ha (by simp) (by decide) (by simp) (by simp) (by decide)
    (by simp) (by decide) (by simp) (by decide) (by simp) (by decide)
    (by simp) (by decide) (by simp)
  exact hb

/-- C3, counterexample: the out-of-range digit label `99` is accepted as a
chromosome, while the lowercase label `x` is rejected, refuting both the
1-22 range restriction and the case-insensitivity stated by the claim. -/
theorem c3_chrom_class_counterexample :
    parse_variant "99-100-A-G" = some ("99", 100, "A", "G") ∧
    parse_variant "x-100-A-G" = none :=
  ⟨rfl, rfl⟩

/-- C3, amended: the parser accepts a chromosome label exactly when it is
one or two characters drawn from the class of digits `0`-`9` and the
letters `X`, `Y`, `M`, `T`, `t` (case sensitive except for the lone
lowercase `t`; no range check on digit labels, so `0`, `99`, `XX`, ... are
accepted and lowercase `x`, `y`, `m` are not), with an optional literal
lowercase `chr` before the label. -/
theorem c3_chrom_class_amended (c : String) :
    (parse_variant (c ++ "-100-A-G") = some (c, 100, "A", "G") ↔
      (c.data ≠ [] ∧ c.data.length ≤ 2 ∧ c.data.all chromChar = true)) ∧
    (parse_variant ("chr" ++ (c ++ "-100-A-G")) = some (c, 100, "A", "G") ↔
      (c.data ≠ [] ∧ c.data.length ≤ 2 ∧ c.data.all chromChar = true)) := by
  constructor
  · constructor
    · intro h
      obtain ⟨rest, hm⟩ := parse_variant_inv _ _ _ _ _ h
      rw [matchVariant_as_core] at hm
      obtain ⟨S1, D, S2, S3, hdec, ⟨hc0, hc2, hca⟩, _⟩ :=
        matchCore_inv _ _ _ _ _ _ hm
      exact ⟨hc0, hc2, List.all_eq_true.mpr hca⟩
    · rintro ⟨h0, h2, hall⟩
      have ha : ∀ x ∈ c.data, chromChar x = true := List.all_eq_true.mp hall
      have hb := chrom_build_helper c.data h0 h2 ha
      obtain ⟨x, xs, hxe⟩ := List.exists_cons_of_ne_nil h0
      have hx : chromChar x = true := ha x (by rw [hxe]; simp)
      have hdata : (c ++ "-100-A-G").data =
          c.data ++ ['-', '1', '0', '0', '-', 'A', '-', 'G'] := rfl
      simp only [parse_variant, hdata, hxe, List.cons_append]
      rw [matchVariant_no_chr x _ (chrom_ne_c hx)]
      rw [hxe, List.cons_append] at hb
      rw [hb]
      have hmkc : String.mk (x :: xs) = c := by
        rw [← hxe]
      simp [hmkc]
  · constructor
    · intro h
      obtain ⟨rest, hm⟩ := parse_variant_inv _ _ _ _ _ h
      rw [matchVariant_as_core] at hm
      obtain ⟨S1, D, S2, S3, hdec, ⟨hc0, hc2, hca⟩, _⟩ :=
        matchCore_inv _ _ _ _ _ _ hm
      exact ⟨hc0, hc2, List.all_eq_true.mpr hca⟩
    · rintro ⟨h0, h2, hall⟩
      have ha : ∀ x ∈ c.data, chromChar x = true := List.all_eq_true.mp hall
      have hb := chrom_build_helper c.data h0 h2 ha
      have hdata : ("chr" ++ (c ++ "-100-A-G")).data =
          ['c', 'h', 'r'] ++
            (c.data ++ ['-', '1', '0', '0', '-', 'A', '-', 'G']) := rfl
      simp only [parse_variant, hdata]
      rw [matchVariant_chr, hb]
      simp [mk_data]

/-- C5: re-parsing the `chrom-pos-ref-alt` rendering of a parsed variant
yields the same four components.  The position is re-rendered without
leading zeros, but its parsed value is unchanged; the chromosome never
starts with `c`, so the optional `chr` literal cannot fire on the
rendering. -/
theorem c5_parse_render_idempotent (s c : String) (p : Nat) (r a : String)
    (h : parse_variant s = some (c, p, r, a)) :
    parse_variant (VariantRecord.render ⟨c, p, r, [a]⟩) =
      some (c, p, r, a) := by
  obtain ⟨rest, hm⟩ := parse_variant_inv _ _ _ _ _ h
  rw [matchVariant_as_core] at hm
  obtain ⟨S1, D, S2, S3, hdec, ⟨hc0, hc2, hca⟩, hS1c, hDc, hS2c,
    ⟨hr0, hra⟩, hS3c, ⟨ha0, haa⟩, hrest⟩ := matchCore_inv _ _ _ _ _ _ hm
  obtain ⟨hD0, hD9, hDa, hDp⟩ := hDc
  have hp9 : p < 10 ^ 9 := by
    rw [← hDp]
    exact lt_of_lt_of_le (digitsToNat_lt D hDa)
      (Nat.pow_le_pow_right (by omega) hD9)
  have hnd_len : (natToDigits p).length ≤ 9 :=
    natToDigits_length_le 9 p (by omega) hp9
  have hb := matchCore_build c.data ['-'] (natToDigits p) ['-'] r.data ['-']
    a.data [] hc0 hc2 hca (by simp) (by decide) (natToDigits_ne_nil p)
    hnd_len (natToDigits_all_digit p) (by simp) (by decide) hr0 hra
    (by simp) (by decide) ha0 haa (by simp)
  simp only [List.singleton_append, List.append_nil] at hb
  have hdata : (VariantRecord.render ⟨c, p, r, [a]⟩).data =
      c.data ++ ('-' :: (natToDigits p ++ ('-' :: (r.data ++
        ('-' :: a.data))))) := by
    simp [VariantRecord.render, data_append, List.append_assoc]
  obtain ⟨x, xs, hxe⟩ := List.exists_cons_of_ne_nil hc0
  have hx : chromChar x = true := hca x (by rw [hxe]; simp)
  simp only [parse_variant, hdata, hxe, List.cons_append]
  rw [matchVariant_no_chr x _ (chrom_ne_c hx)]
  rw [hxe, List.cons_append] at hb
  rw [hb]
  have hmkc : String.mk (x :: xs) = c := by
    rw [← hxe]
  simp [hmkc, mk_data, digitsToNat_natToDigits]

/-- C5, witness at the token `chr1:100:A>G`, whose rendering is
`1-100-A-G`. -/
theorem c5_parse_render_idempotent_witness :
    parse_variant "chr1:100:A>G" = some ("1", 100, "A", "G") ∧
    parse_variant (VariantRecord.render ⟨"1", 100, "A", ["G"]⟩) =
      some ("1", 100, "A", "G") :=
  ⟨rfl, c5_parse_render_idempotent "chr1:100:A>G" "1" 100 "A" "G" rfl⟩

lemma matchCore_extend (l e : List Char) (c : String) (p : Nat) (r a : String)
    (h : matchCore l = some ((c, p, r, a), [])) :
    matchCore (l ++ e) =
      some ((c, p, r, String.mk (a.data ++ e.takeWhile baseChar)),
        e.dropWhile baseChar) := by
  obtain ⟨S1, D, S2, S3, hdec, ⟨hc0, hc2, hca⟩, ⟨hS10, hS1a⟩, hDc,
    ⟨hS20, hS2a⟩, ⟨hr0, hra⟩, ⟨hS30, hS3a⟩, ⟨ha0, haa⟩, _⟩ :=
    matchCore_inv _ _ _ _ _ _ h
  obtain ⟨hD0, hD9, hDa, hDp⟩ := hDc
  have hb := matchCore_build c.data S1 D S2 r.data S3
    (a.data ++ e.takeWhile baseChar) (e.dropWhile baseChar)
    hc0 hc2 hca hS10 hS1a hD0 hD9 hDa hS20 hS2a hr0 hra hS30 hS3a
    (fun hh => ha0 (List.append_eq_nil.mp hh).1)
    (by
      intro x hx
      rcases List.mem_append.mp hx with hx | hx
      · exact haa x hx
      · exact mem_takeWhile_sat _ _ x hx)
    (head_dropWhile_neg baseChar e)
  have harg : c.data ++ (S1 ++ (D ++ (S2 ++ (r.data ++ (S3 ++
      ((a.data ++ e.takeWhile baseChar) ++ e.dropWhile baseChar)))))) =
      l ++ e := by
    rw [hdec]
    simp [List.append_assoc, List.takeWhile_append_dropWhile]
  rw [harg] at hb
  rw [hb, mk_data, mk_data, hDp]

/-- C6, counterexample: `1-100-A-G` is a full match of the grammar, but
appending the extra character `G` does not leave the matched prefix's
result intact: the greedy alternate-allele group absorbs the suffix and
the parse returns alt `GG`, not the prefix's alt `G`. -/
theorem c6_suffix_extends_alt_counterexample :
    matchVariant ("1-100-A-G".data) = some (("1", 100, "A", "G"), []) ∧
    parse_variant ("1-100-A-G" ++ "G") = some ("1", 100, "A", "GG") ∧
    (("GG" : String) ≠ "G") :=
  ⟨rfl, rfl, by simp⟩

/-- C6, amended: parsing is anchored at the start and never rejects
trailing input after a full match: for every token consisting of a string
that fully matches the variant grammar followed by arbitrary extra
characters, parsing succeeds, with the chromosome, position and reference
of the matching prefix; the alternate allele equals the prefix's alternate
extended by the leading run of allele characters (A/C/G/T) of the extra
text, so the result equals the prefix's result exactly when the extra text
does not begin with an allele character. -/
theorem c6_trailing_garbage_amended (s e : String) (c : String) (p : Nat)
    (r a : String) (h : matchVariant s.data = some ((c, p, r, a), [])) :
    parse_variant (s ++ e) =
      some (c, p, r, String.mk (a.data ++ e.data.takeWhile baseChar)) := by
  rw [matchVariant_as_core] at h
  by_cases hchr : s.data.take 3 = ['c', 'h', 'r']
  · rw [if_pos hchr] at h
    have hext := matchCore_extend _ e.data _ _ _ _ h
    have hsplit : s.data = ['c', 'h', 'r'] ++ s.data.drop 3 := by
      rw [← hchr, List.take_append_drop]
    have hdata : (s ++ e).data =
        ['c', 'h', 'r'] ++ (s.data.drop 3 ++ e.data) := by
      rw [data_append]
      conv_lhs => rw [hsplit]
      rw [List.append_assoc]
    simp only [parse_variant, hdata]
    rw [matchVariant_chr, hext]
    rfl
  · rw [if_neg hchr] at h
    have hext := matchCore_extend _ e.data _ _ _ _ h
    obtain ⟨S1, D, S2, S3, hdec, ⟨hc0, hc2, hca⟩, ⟨hS10, _⟩, ⟨hD0, _, _, _⟩,
      hS2c, hr, hS3c, ha', hrest⟩ := matchCore_inv _ _ _ _ _ _ h
    have hlen3 : 3 ≤ s.data.length := by
      rw [hdec]
      have l1 : 1 ≤ c.data.length := List.length_pos.mpr hc0
      have l2 : 1 ≤ S1.length := List.length_pos.mpr hS10
      have l3 : 1 ≤ D.length := List.length_pos.mpr hD0
      simp only [List.length_append]
      omega
    have hne : ¬ ((s ++ e).data.take 3 = ['c', 'h', 'r']) := by
      rw [data_append, List.take_append_eq_append_take,
        Nat.sub_eq_zero_of_le hlen3, List.take_zero, List.append_nil]
      exact hchr
    simp only [parse_variant, matchVariant_as_core, if_neg hne]
    rw [data_append, hext]
    rfl

/-- C6, witness for the amended theorem: the full match `1-100-A-G`
followed by the extra text ` junk` parses to the prefix's result (the
extra text begins with a space, not an allele character, so the alternate
allele is unchanged). -/
theorem c6_trailing_garbage_amended_witness :
    matchVariant ("1-100-A-G".data) = some (("1", 100, "A", "G"), []) ∧
    parse_variant ("1-100-A-G" ++ " junk") =
      some ("1", 100, "A",
        String.mk ("G".data ++ (" junk".data.takeWhile baseChar))) :=
  ⟨rfl, c6_trailing_garbage_amended "1-100-A-G" " junk" "1" 100 "A" "G" rfl⟩
